import Mathlib

/-!
Verification development for the assertion core of the httpexpect fork:
the `Object` wrapper (object.go) and the `Match` wrapper (match.go).

Shallow embedding notes.
The library stores JSON-like values as canonical Go trees produced by the
canonicalizer (`canonValue`/`canonMap`, outside the two embedded files):
`nil` interfaces (JSON null), `bool`, `float64`, `string`,
`[]interface\x7b\x7d` and `map[string]interface\x7b\x7d`.  We embed those
trees as the inductive `CanonValue`; a Go `map[string]interface\x7b\x7d` is
embedded as an association list with distinct keys (`canonicalMap` states
the distinct-keys invariant Go maps enforce by construction).  Numbers are
embedded as `Rat`: the spec fixes a single 64-bit float representation
compared by exact equality, and `Rat` gives exact decidable equality with
the same observable comparison behaviour on canonical JSON numbers.
`reflect.DeepEqual` on such trees is order-insensitive on maps and
order-sensitive on slices; `deepEqual` below mirrors that.
-/

namespace Httpexpect

/-- Canonical value tree (Go representation of a decoded JSON value). -/
inductive CanonValue where
  | null
  | boolean (b : Bool)
  | num (q : Rat)
  | str (s : String)
  | seq (xs : List CanonValue)
  | map (kvs : List (String × CanonValue))

/-- Association lists embed Go `map[string]interface\x7b\x7d` values. -/
abbrev Mapping := List (String × CanonValue)

/-- Embeds Go map indexing `m[k]` (as an `Option`): the first binding wins;
on Go maps keys are unique so there is at most one binding. -/
def lookupKey : Mapping → String → Option CanonValue
  | [], _ => none
  | (k2, v) :: rest, k => if k2 = k then some v else lookupKey rest k

mutual
/-- Embeds `reflect.DeepEqual` on canonical trees: structural equality that
is position-wise on sequences and key-set based on mappings. -/
def deepEqual : CanonValue → CanonValue → Bool
  | .null, .null => true
  | .boolean a, .boolean b => decide (a = b)
  | .num a, .num b => decide (a = b)
  | .str a, .str b => decide (a = b)
  | .seq a, .seq b => seqEqual a b
  | .map a, .map b => mapEqual a b
  | _, _ => false
termination_by a _ => 2 * sizeOf a + 1

/-- Element-for-element equality of sequences (`reflect.DeepEqual` on slices). -/
def seqEqual : List CanonValue → List CanonValue → Bool
  | [], [] => true
  | x :: xs, y :: ys => deepEqual x y && seqEqual xs ys
  | _, _ => false
termination_by a _ => 2 * sizeOf a

/-- Map equality (`reflect.DeepEqual` on maps): equal sizes and every
binding of the first map is present, deeply equal, in the second. -/
def mapEqual (a b : Mapping) : Bool :=
  decide (a.length = b.length) && mapSubEq a b
termination_by 2 * sizeOf a + 1

/-- Every binding of `a` is present and deeply equal in `b`. -/
def mapSubEq : Mapping → Mapping → Bool
  | [], _ => true
  | (k, v) :: rest, b =>
    (match lookupKey b k with
     | some w => deepEqual v w
     | none => false) && mapSubEq rest b
termination_by a _ => 2 * sizeOf a
end

mutual
/-- Canonicality of a tree: every mapping inside has pairwise-distinct
keys.  This is the invariant every tree produced from a Go
`map[string]interface\x7b\x7d` satisfies (Go map keys are unique). -/
def canonicalV : CanonValue → Bool
  | .seq xs => canonicalSeq xs
  | .map kvs => canonicalMap kvs
  | _ => true
termination_by v => sizeOf v

/-- Canonicality of every element of a sequence. -/
def canonicalSeq : List CanonValue → Bool
  | [] => true
  | x :: xs => canonicalV x && canonicalSeq xs
termination_by xs => sizeOf xs

/-- Canonicality of a mapping: keys pairwise distinct, values canonical. -/
def canonicalMap : Mapping → Bool
  | [] => true
  | (k, v) :: rest => (lookupKey rest k).isNone && canonicalV v && canonicalMap rest
termination_by kvs => sizeOf kvs
end

mutual
/-- Embeds `checkContainsMap` (object.go): iterate the inner bindings,
requiring each to pass `entryCheck` against the outer map. -/
def checkContainsMap (outer : Mapping) : Mapping → Bool
  | [] => true
  | (k, iv) :: rest => entryCheck outer k iv && checkContainsMap outer rest
termination_by inner => sizeOf inner

/-- Body of the `checkContainsMap` loop for one inner binding `(k, iv)`:
the key must be present in `outer`; if both values are mappings the check
recurses, otherwise the values must be `reflect.DeepEqual`. -/
def entryCheck (outer : Mapping) (k : String) (iv : CanonValue) : Bool :=
  match lookupKey outer k with
  | none => false
  | some ov =>
    match ov, iv with
    | .map ovm, .map ivm => checkContainsMap ovm ivm
    | _, _ => deepEqual ov iv
termination_by sizeOf iv
end

/-- Failure kinds used by the two embedded files (the `failureAssert...`
constants of the library; modelled from the spec taxonomy in section 6,
since their declarations are outside the embedded files). -/
inductive FailureKind where
  | invalidInput
  | equal
  | notEqual
  | contains
  | notContains
  | key
  | outOfBounds
  | empty
  | notEmpty
  | matchRe
deriving DecidableEq, Repr

/-- Payload carried in a Failure's expected or actual field (Go
`interface\x7b\x7d`): the embedded files store canonical values, raw keys,
whole object maps, integers, submatch lists and name tables there. -/
inductive FailureValue where
  | canon (v : CanonValue)
  | strVal (s : String)
  | intVal (n : Int)
  | strList (xs : List String)
  | nameTable (t : List (String × Nat))
  | mapVal (m : Option Mapping)

/-- Modelled from the spec: the `Failure` record (section 6) produced by a
wrapper method and forwarded verbatim to the Reporter; its declaration is
outside the embedded files.  `err` carries the message of the
`invalid-input` constructor failure. -/
structure Failure where
  assertionName : String := ""
  assertType : FailureKind
  expected : Option FailureValue := none
  actual : Option FailureValue := none
  err : Option String := none

/-- Modelled from the spec: the `chain` failure-propagation handle
(section 4.3), whose declaration is outside the embedded files.  `failbit`
is the monotonic failed flag; `log` embeds the Reporter as the ordered
list of failures forwarded to it. -/
structure Chain where
  failbit : Bool
  log : List Failure

/-- Modelled from the spec: `makeChain(reporter)` yields a fresh chain in
state ok with nothing reported. -/
def makeChain : Chain := ⟨false, []⟩

/-- Modelled from the spec: `chain.fail(failure)` reports the failure to
the Reporter and moves the chain to (or keeps it in) the failed state. -/
def Chain.fail (c : Chain) (f : Failure) : Chain := ⟨true, c.log ++ [f]⟩

/-- Modelled from the spec: `chain.failed()` is a pure query of the flag. -/
def Chain.failedQ (c : Chain) : Bool := c.failbit

/-- Modelled from the spec: `canonValue` (section 4.1) lives outside the
embedded files; on an already-canonical tree canonicalization is the
identity and always succeeds (determinism and idempotence), so in this
embedding, whose method arguments are canonical trees, it returns its
input with ok = true.  The ok = false branches of the callers are
therefore unreachable here but are kept, mirroring the source. -/
def canonValue (v : CanonValue) : CanonValue × Bool := (v, true)

/-- Modelled from the spec: `canonMap`, as `canonValue` restricted to
mappings; identity with ok = true on the canonical mappings this
embedding passes it. -/
def canonMap (m : Mapping) : Mapping × Bool := (m, true)

/-- Embeds the `Object` wrapper (object.go): a chain plus a possibly-nil
Go map.  `none` models a nil `map[string]interface\x7b\x7d`. -/
structure Object where
  chain : Chain
  value : Option Mapping

/-- Embeds the `Value` wrapper as far as object.go constructs it: a chain
plus a canonical value (`.null` embeds the nil interface). -/
structure Value where
  chain : Chain
  value : CanonValue

/-- Embeds the `Array` wrapper as far as object.go constructs it. -/
structure ArrayW where
  chain : Chain
  value : List CanonValue

/-- Embeds the `String` wrapper as far as match.go constructs it. -/
structure StringW where
  chain : Chain
  value : String

/-- Embeds the `Number` wrapper as far as match.go constructs it. -/
structure NumberW where
  chain : Chain
  value : Rat

/-- Embeds `NewObject`: fresh chain; a nil map records an invalid-input
failure, otherwise the value is canonicalized (identity here) and stored. -/
def NewObject (value : Option Mapping) : Object :=
  let c := makeChain
  match value with
  | none =>
      { chain := c.fail { assertType := .invalidInput,
                          err := some "expected non-nil map value" },
        value := none }
  | some m =>
      let (m2, _) := canonMap m
      { chain := c, value := some m2 }

/-- Embeds `Object.Raw`. -/
def Object.Raw (o : Object) : Option Mapping := o.value

/-- Embeds Go iteration and indexing over the object's possibly-nil map:
ranging over and indexing a nil map behave as over an empty map. -/
def Object.entries (o : Object) : Mapping := o.value.getD []

/-- Embeds `o.value[key]` (Go indexing yields the zero value, a nil
interface, i.e. canonical null, when the key is absent). -/
def Object.indexVal (o : Object) (key : String) : CanonValue :=
  (lookupKey o.entries key).getD .null

/-- Embeds the private `Object.containsKey`: linear scan of the keys. -/
def Object.containsKey (o : Object) (key : String) : Bool :=
  o.entries.any (fun p => p.1 = key)

/-- Embeds `reflect.DeepEqual(expected, o.value)` where `expected` is a
non-nil canonical map and `o.value` may be nil (a nil map is
`DeepEqual`-distinct from every non-nil map). -/
def deepEqualObj (expected : Mapping) (value : Option Mapping) : Bool :=
  match value with
  | none => false
  | some m => mapEqual expected m

/-- Embeds `Object.Keys`: the map's keys, in binding order (Go iteration
order is unspecified; the embedding fixes insertion order). -/
def Object.Keys (o : Object) : ArrayW :=
  ⟨o.chain, o.entries.map (fun p => .str p.1)⟩

/-- Embeds `Object.Values`: the map's values, in binding order. -/
def Object.ValuesA (o : Object) : ArrayW :=
  ⟨o.chain, o.entries.map (fun p => p.2)⟩

/-- Embeds `Object.Value`: navigate to the value at a key, recording a key
failure (and yielding a null-valued wrapper) when the key is absent. -/
def Object.ValueAt (o : Object) (key : String) : Value :=
  match lookupKey o.entries key with
  | none =>
      ⟨o.chain.fail { assertionName := "Object.Value",
                      assertType := .key,
                      expected := some (.strVal key),
                      actual := some (.mapVal o.value) }, .null⟩
  | some v => ⟨o.chain, v⟩

/-- Embeds `Object.Equal`: canonicalize the argument, then require
`reflect.DeepEqual` with the stored map. -/
def Object.Equal (o : Object) (value : Mapping) : Object :=
  let (expected, ok) := canonMap value
  if !ok then o
  else if !deepEqualObj expected o.value then
    { o with chain := o.chain.fail { assertionName := "Object.Equal",
                                     assertType := .equal,
                                     expected := some (.mapVal (some expected)),
                                     actual := some (.mapVal o.value) } }
  else o

/-- Embeds `Object.NotEqual` (the failure stores the raw argument as
expected and no actual, mirroring the source). -/
def Object.NotEqual (o : Object) (v : Mapping) : Object :=
  let (expected, ok) := canonMap v
  if !ok then o
  else if deepEqualObj expected o.value then
    { o with chain := o.chain.fail { assertionName := "Object.NotEqual",
                                     assertType := .notEqual,
                                     expected := some (.mapVal (some v)) } }
  else o

/-- Embeds `Object.Empty`: delegation to `Equal` on the empty map. -/
def Object.Empty (o : Object) : Object :=
  o.Equal []

/-- Embeds `Object.NotEmpty`: delegation to `NotEqual` on the empty map. -/
def Object.NotEmpty (o : Object) : Object :=
  o.NotEqual []

/-- Embeds `Object.ContainsKey`. -/
def Object.ContainsKey (o : Object) (key : String) : Object :=
  if !(o.containsKey key) then
    { o with chain := o.chain.fail { assertionName := "Object.ContainsKey",
                                     assertType := .key,
                                     expected := some (.strVal key),
                                     actual := some (.mapVal o.value) } }
  else o

/-- Embeds `Object.NotContainsKey`. -/
def Object.NotContainsKey (o : Object) (key : String) : Object :=
  if o.containsKey key then
    { o with chain := o.chain.fail { assertionName := "Object.NotContainsKey",
                                     assertType := .key,
                                     expected := some (.strVal key),
                                     actual := some (.mapVal o.value) } }
  else o

/-- Embeds the private `Object.containsMap`: canonicalize the candidate
and run `checkContainsMap` against the stored map. -/
def Object.containsMap (o : Object) (sm : Mapping) : Bool :=
  let (submap, ok) := canonMap sm
  if !ok then false
  else checkContainsMap o.entries submap

/-- Embeds `Object.ContainsMap`. -/
def Object.ContainsMap (o : Object) (value : Mapping) : Object :=
  if !(o.containsMap value) then
    { o with chain := o.chain.fail { assertionName := "Object.ContainsMap",
                                     assertType := .contains,
                                     expected := some (.mapVal (some value)),
                                     actual := some (.mapVal o.value) } }
  else o

/-- Embeds `Object.NotContainsMap`. -/
def Object.NotContainsMap (o : Object) (value : Mapping) : Object :=
  if o.containsMap value then
    { o with chain := o.chain.fail { assertionName := "Object.NotContainsMap",
                                     assertType := .notContains,
                                     expected := some (.mapVal (some value)),
                                     actual := some (.mapVal o.value) } }
  else o

/-- Embeds `Object.ValueEqual`: `ContainsKey` first, then the `failed()`
short-circuit, then canonicalize and compare with `reflect.DeepEqual`. -/
def Object.ValueEqual (o : Object) (key : String) (value : CanonValue) : Object :=
  let o1 := o.ContainsKey key
  if o1.chain.failedQ then o1
  else
    let (expected, ok) := canonValue value
    if !ok then o1
    else if !deepEqual expected (o1.indexVal key) then
      { o1 with chain := o1.chain.fail { assertionName := "Object.ValueEqual",
                                         assertType := .equal,
                                         expected := some (.canon expected),
                                         actual := some (.canon (o1.indexVal key)) } }
    else o1

/-- Embeds `Object.ValueNotEqual` (the failure stores only expected,
mirroring the source). -/
def Object.ValueNotEqual (o : Object) (key : String) (value : CanonValue) : Object :=
  let o1 := o.ContainsKey key
  if o1.chain.failedQ then o1
  else
    let (expected, ok) := canonValue value
    if !ok then o1
    else if deepEqual expected (o1.indexVal key) then
      { o1 with chain := o1.chain.fail { assertionName := "Object.ValueNotEqual",
                                         assertType := .notEqual,
                                         expected := some (.canon expected) } }
    else o1

/-- A Go `map[string]int` (the name table) as an association list. -/
abbrev NameTable := List (String × Nat)

/-- Lookup in the name table (Go `m.names[name]` as an `Option`). -/
def lookupName : NameTable → String → Option Nat
  | [], _ => none
  | (k2, i) :: rest, k => if k2 = k then some i else lookupName rest k

/-- Embeds Go map assignment `namemap[name] = n`: replace the binding for
`name` if present, otherwise add it. -/
def insertName : NameTable → String → Nat → NameTable
  | [], name, n => [(name, n)]
  | (k, i) :: rest, name, n =>
    if k = name then (k, n) :: rest else (k, i) :: insertName rest name n

/-- Embeds the name-table construction loop of `makeMatch`: walk the
names with their indices, inserting every non-empty name. -/
def buildNamesAux : Nat → List String → NameTable → NameTable
  | _, [], acc => acc
  | n, name :: rest, acc =>
    buildNamesAux (n + 1) rest (if name = "" then acc else insertName acc name n)

/-- The name table `makeMatch` builds from the names list. -/
def buildNames (names : List String) : NameTable :=
  buildNamesAux 0 names []

/-- Embeds the `Match` wrapper (match.go): chain, submatch list and the
precomputed name table. -/
structure Match where
  chain : Chain
  submatches : List String
  names : NameTable

/-- Embeds `makeMatch`: normalize nil submatches to empty (`List` has no
nil/empty distinction, noted for fidelity) and build the name table. -/
def makeMatch (chain : Chain) (submatches : List String) (names : List String) : Match :=
  ⟨chain, submatches, buildNames names⟩

/-- Embeds `NewMatch`: `makeMatch` on a fresh chain. -/
def NewMatch (submatches : List String) (names : List String) : Match :=
  makeMatch makeChain submatches names

/-- Embeds `Match.Raw`. -/
def Match.Raw (m : Match) : List String := m.submatches

/-- Embeds `Match.Length` (`float64(len(m.submatches))`). -/
def Match.Length (m : Match) : NumberW :=
  ⟨m.chain, (m.submatches.length : Rat)⟩

/-- Embeds `Match.Index`: bounds-checked submatch access; out of range
records an out-of-bounds failure (expected = index, actual = length) and
yields an empty-string wrapper on the same chain. -/
def Match.Index (m : Match) (index : Int) : StringW :=
  if index < 0 ∨ (m.submatches.length : Int) ≤ index then
    ⟨m.chain.fail { assertionName := "Match.Index",
                    assertType := .outOfBounds,
                    expected := some (.intVal index),
                    actual := some (.intVal (m.submatches.length : Int)) }, ""⟩
  else
    ⟨m.chain, m.submatches.getD index.toNat ""⟩

/-- Embeds `Match.Name`: resolve the name through the table; absence
records a failure (expected = the whole table, actual = the name) and
yields an empty-string wrapper; presence goes through `Index`. -/
def Match.Name (m : Match) (name : String) : StringW :=
  match lookupName m.names name with
  | none =>
      ⟨m.chain.fail { assertionName := "Match.Name",
                      assertType := .matchRe,
                      expected := some (.nameTable m.names),
                      actual := some (.strVal name) }, ""⟩
  | some index => m.Index (index : Int)

/-- Embeds `Match.Empty`. -/
def Match.Empty (m : Match) : Match :=
  if m.submatches.length ≠ 0 then
    { m with chain := m.chain.fail { assertionName := "Match.Empty",
                                     assertType := .empty,
                                     actual := some (.strList m.submatches) } }
  else m

/-- Embeds `Match.NotEmpty`. -/
def Match.NotEmpty (m : Match) : Match :=
  if m.submatches.length = 0 then
    { m with chain := m.chain.fail { assertionName := "Match.NotEmpty",
                                     assertType := .notEmpty } }
  else m

/-- Embeds the private `Match.getValues`: the submatches from index 1
on (empty when there is at most the whole-match entry). -/
def Match.getValues (m : Match) : List String :=
  if 1 < m.submatches.length then m.submatches.drop 1 else []

/-- Embeds `Match.Values`: the given list must equal the submatches from
index 1 on (a nil argument list is normalized to empty in Go; `List` has
no such distinction). -/
def Match.Values (m : Match) (values : List String) : Match :=
  if values ≠ m.getValues then
    { m with chain := m.chain.fail { assertionName := "Match.Values",
                                     assertType := .equal,
                                     expected := some (.strList values),
                                     actual := some (.strList m.getValues) } }
  else m

/-- Embeds `Match.NotValues` (the failure stores only expected,
mirroring the source). -/
def Match.NotValues (m : Match) (values : List String) : Match :=
  if values = m.getValues then
    { m with chain := m.chain.fail { assertionName := "Match.NotValues",
                                     assertType := .notEqual,
                                     expected := some (.strList values) } }
  else m

/-- Index of the last occurrence of `nm` in a names list, if any; used to
state the last-wins property of the name table. -/
def lastOcc : List String → String → Option Nat
  | [], _ => none
  | x :: rest, nm =>
    match lastOcc rest nm with
    | some j => some (j + 1)
    | none => if x = nm then some 0 else none

/-! Basic lemmas about lookup, canonicality and the containment checker. -/

theorem lookupKey_mem {m : Mapping} {k : String} {v : CanonValue}
    (h : lookupKey m k = some v) : (k, v) ∈ m := by
  induction m with
  | nil => simp [lookupKey] at h
  | cons p rest ih =>
    obtain ⟨k2, w⟩ := p
    rw [lookupKey] at h
    by_cases hk : k2 = k
    · simp [hk] at h
      subst hk; subst h
      exact List.mem_cons_self _ _
    · simp [hk] at h
      exact List.mem_cons_of_mem _ (ih h)

theorem lookupKey_eq_none_iff {m : Mapping} {k : String} :
    lookupKey m k = none ↔ k ∉ m.map Prod.fst := by
  induction m with
  | nil => simp [lookupKey]
  | cons p rest ih =>
    obtain ⟨k2, w⟩ := p
    rw [lookupKey]
    by_cases hk : k2 = k
    · subst hk; simp
    · rw [if_neg hk, ih]
      simp only [List.map_cons, List.mem_cons]
      constructor
      · intro hn hor
        rcases hor with he | hm
        · exact hk he.symm
        · exact hn hm
      · intro hn hm
        exact hn (Or.inr hm)

theorem lookupKey_isSome_of_mem_keys {m : Mapping} {k : String}
    (h : k ∈ m.map Prod.fst) : ∃ v, lookupKey m k = some v := by
  cases hl : lookupKey m k with
  | none => exact absurd h (lookupKey_eq_none_iff.mp hl)
  | some v => exact ⟨v, rfl⟩

theorem mem_keys_of_lookupKey {m : Mapping} {k : String} {v : CanonValue}
    (h : lookupKey m k = some v) : k ∈ m.map Prod.fst := by
  exact List.mem_map.mpr ⟨(k, v), lookupKey_mem h, rfl⟩

theorem canonicalMap_cons {k : String} {v : CanonValue} {rest : Mapping} :
    canonicalMap ((k, v) :: rest) = true ↔
      lookupKey rest k = none ∧ canonicalV v = true ∧ canonicalMap rest = true := by
  rw [canonicalMap]
  simp [Option.isNone_iff_eq_none, and_assoc]

theorem canonicalMap_mem_lookup {m : Mapping} {k : String} {v : CanonValue}
    (hc : canonicalMap m = true) (h : (k, v) ∈ m) : lookupKey m k = some v := by
  induction m with
  | nil => simp at h
  | cons p rest ih =>
    obtain ⟨k2, w⟩ := p
    rw [canonicalMap_cons] at hc
    obtain ⟨hnone, _, hrest⟩ := hc
    rcases List.mem_cons.mp h with heq | hmem
    · obtain ⟨h1, h2⟩ := Prod.mk.injEq .. ▸ heq
      subst h1; subst h2
      simp [lookupKey]
    · rw [lookupKey]
      by_cases hk : k2 = k
      · subst hk
        have := lookupKey_eq_none_iff.mp hnone
        exact absurd (List.mem_map.mpr ⟨(k2, v), hmem, rfl⟩) this
      · simp [hk]
        exact ih hrest hmem

theorem canonicalMap_mem_canonical {m : Mapping} {k : String} {v : CanonValue}
    (hc : canonicalMap m = true) (h : (k, v) ∈ m) : canonicalV v = true := by
  induction m with
  | nil => simp at h
  | cons p rest ih =>
    obtain ⟨k2, w⟩ := p
    rw [canonicalMap_cons] at hc
    obtain ⟨_, hv, hrest⟩ := hc
    rcases List.mem_cons.mp h with heq | hmem
    · obtain ⟨h1, h2⟩ := Prod.mk.injEq .. ▸ heq
      subst h2; exact hv
    · exact ih hrest hmem

theorem canonicalMap_nodup_keys {m : Mapping}
    (hc : canonicalMap m = true) : (m.map Prod.fst).Nodup := by
  induction m with
  | nil => simp
  | cons p rest ih =>
    obtain ⟨k2, w⟩ := p
    rw [canonicalMap_cons] at hc
    obtain ⟨hnone, _, hrest⟩ := hc
    simp only [List.map_cons, List.nodup_cons]
    exact ⟨lookupKey_eq_none_iff.mp hnone, ih hrest⟩

theorem canonicalSeq_mem {xs : List CanonValue} {x : CanonValue}
    (hc : canonicalSeq xs = true) (h : x ∈ xs) : canonicalV x = true := by
  induction xs with
  | nil => simp at h
  | cons y ys ih =>
    rw [canonicalSeq] at hc
    simp at hc
    rcases List.mem_cons.mp h with heq | hmem
    · subst heq; exact hc.1
    · exact ih hc.2 hmem

theorem mapSubEq_iff {a b : Mapping} :
    mapSubEq a b = true ↔
      ∀ p ∈ a, ∃ w, lookupKey b p.1 = some w ∧ deepEqual p.2 w = true := by
  induction a with
  | nil => simp [mapSubEq]
  | cons p rest ih =>
    obtain ⟨k, v⟩ := p
    rw [mapSubEq]
    simp only [Bool.and_eq_true, ih, List.mem_cons]
    constructor
    · rintro ⟨h1, h2⟩ q hq
      rcases hq with heq | hmem
      · subst heq
        cases hl : lookupKey b k with
        | none => simp [hl] at h1
        | some w => simp [hl] at h1; exact ⟨w, rfl, h1⟩
      · exact h2 q hmem
    · intro h
      constructor
      · obtain ⟨w, hw, hd⟩ := h (k, v) (Or.inl rfl)
        simp only at hw
        simp [hw, hd]
      · intro q hq; exact h q (Or.inr hq)

theorem mapEqual_iff {a b : Mapping} :
    mapEqual a b = true ↔
      a.length = b.length ∧
        ∀ p ∈ a, ∃ w, lookupKey b p.1 = some w ∧ deepEqual p.2 w = true := by
  rw [mapEqual]
  simp [mapSubEq_iff]

theorem checkContainsMap_iff {outer inner : Mapping} :
    checkContainsMap outer inner = true ↔
      ∀ p ∈ inner, entryCheck outer p.1 p.2 = true := by
  induction inner with
  | nil => simp [checkContainsMap]
  | cons p rest ih =>
    obtain ⟨k, v⟩ := p
    rw [checkContainsMap]
    simp only [Bool.and_eq_true, ih, List.mem_cons]
    constructor
    · rintro ⟨h1, h2⟩ q hq
      rcases hq with heq | hmem
      · subst heq; exact h1
      · exact h2 q hmem
    · intro h
      exact ⟨h (k, v) (Or.inl rfl), fun q hq => h q (Or.inr hq)⟩

/-- Discriminator for the mapping constructor. -/
def isMapB : CanonValue → Bool
  | .map _ => true
  | _ => false

theorem entryCheck_some_maps {outer : Mapping} {k : String} {ovm ivm : Mapping}
    (h : lookupKey outer k = some (.map ovm)) :
    entryCheck outer k (.map ivm) = checkContainsMap ovm ivm := by
  simp only [entryCheck, h]

theorem entryCheck_some_deep {outer : Mapping} {k : String} {ov iv : CanonValue}
    (h : lookupKey outer k = some ov)
    (hb : (isMapB ov && isMapB iv) = false) :
    entryCheck outer k iv = deepEqual ov iv := by
  simp only [entryCheck, h]
  cases ov <;> cases iv <;> first | rfl | simp [isMapB] at hb

theorem entryCheck_none {outer : Mapping} {k : String} {iv : CanonValue}
    (h : lookupKey outer k = none) : entryCheck outer k iv = false := by
  rw [entryCheck, h]

theorem isMapB_true_iff {v : CanonValue} : isMapB v = true ↔ ∃ m, v = .map m := by
  cases v <;> simp [isMapB]

/-! Size lemmas feeding the strong inductions below. -/

theorem sizeOf_val_lt_of_mem {kvs : Mapping} {k : String} {v : CanonValue}
    (h : (k, v) ∈ kvs) : sizeOf v < sizeOf kvs := by
  have h1 := List.sizeOf_lt_of_mem h
  have h2 : sizeOf (k, v) = 1 + sizeOf k + sizeOf v := by simp
  omega

theorem sizeOf_lt_map {kvs : Mapping} : sizeOf kvs < sizeOf (CanonValue.map kvs) := by
  simp

theorem sizeOf_elem_lt_seq {xs : List CanonValue} {x : CanonValue}
    (h : x ∈ xs) : sizeOf x < sizeOf (CanonValue.seq xs) := by
  have h1 := List.sizeOf_lt_of_mem h
  simp
  omega

/-! Reflexivity of deep equality on canonical trees, and the key-set
argument turning map equality into containment. -/

theorem seqEqual_self {xs : List CanonValue}
    (h : ∀ x ∈ xs, deepEqual x x = true) : seqEqual xs xs = true := by
  induction xs with
  | nil => rw [seqEqual]
  | cons x rest ih =>
    rw [seqEqual]
    simp only [Bool.and_eq_true]
    exact ⟨h x (List.mem_cons_self _ _), ih fun y hy => h y (List.mem_cons_of_mem _ hy)⟩

theorem deepEqual_refl_aux :
    ∀ (n : Nat) (v : CanonValue), sizeOf v ≤ n → canonicalV v = true →
      deepEqual v v = true := by
  intro n
  induction n using Nat.strong_induction_on with
  | _ n ih =>
    intro v hle hc
    cases v with
    | null => simp [deepEqual]
    | boolean b => simp [deepEqual]
    | num q => simp [deepEqual]
    | str s => simp [deepEqual]
    | seq xs =>
      rw [canonicalV] at hc
      simp only [deepEqual]
      apply seqEqual_self
      intro x hx
      have hlt : sizeOf x < sizeOf (CanonValue.seq xs) := sizeOf_elem_lt_seq hx
      exact ih (sizeOf x) (lt_of_lt_of_le hlt hle) x le_rfl (canonicalSeq_mem hc hx)
    | map kvs =>
      rw [canonicalV] at hc
      simp only [deepEqual, mapEqual, Bool.and_eq_true, decide_eq_true_eq]
      refine ⟨trivial, mapSubEq_iff.mpr ?_⟩
      rintro ⟨k, v⟩ hp
      refine ⟨v, canonicalMap_mem_lookup hc hp, ?_⟩
      have hlt : sizeOf v < sizeOf (CanonValue.map kvs) :=
        lt_trans (sizeOf_val_lt_of_mem hp) sizeOf_lt_map
      exact ih (sizeOf v) (lt_of_lt_of_le hlt hle) v le_rfl
        (canonicalMap_mem_canonical hc hp)

theorem deepEqual_refl {v : CanonValue} (hc : canonicalV v = true) :
    deepEqual v v = true :=
  deepEqual_refl_aux (sizeOf v) v le_rfl hc

theorem keys_rev_subset {ka kb : List String} (hna : ka.Nodup) (hnb : kb.Nodup)
    (hsub : ∀ x ∈ ka, x ∈ kb) (hlen : kb.length ≤ ka.length) :
    ∀ x ∈ kb, x ∈ ka := by
  have hfin : ka.toFinset ⊆ kb.toFinset := by
    intro x hx
    rw [List.mem_toFinset] at hx ⊢
    exact hsub x hx
  have hcard : kb.toFinset.card ≤ ka.toFinset.card := by
    rw [List.toFinset_card_of_nodup hna, List.toFinset_card_of_nodup hnb]
    exact hlen
  have heq := Finset.eq_of_subset_of_card_le hfin hcard
  intro x hx
  rw [← List.mem_toFinset] at hx ⊢
  rw [heq]
  exact hx

theorem mapEqual_imp_contains_aux :
    ∀ (n : Nat) (a b : Mapping), sizeOf a ≤ n →
      canonicalMap a = true → canonicalMap b = true → mapEqual a b = true →
      checkContainsMap a b = true := by
  intro n
  induction n using Nat.strong_induction_on with
  | _ n ih =>
    intro a b hle hca hcb heq
    obtain ⟨hlen, hsub⟩ := mapEqual_iff.mp heq
    apply checkContainsMap_iff.mpr
    rintro ⟨k, iv⟩ hp
    have hkeysub : ∀ x ∈ a.map Prod.fst, x ∈ b.map Prod.fst := by
      intro x hx
      obtain ⟨q, hq, hqx⟩ := List.mem_map.mp hx
      obtain ⟨w, hw, _⟩ := hsub q hq
      subst hqx
      exact mem_keys_of_lookupKey hw
    have hkb : k ∈ b.map Prod.fst := List.mem_map.mpr ⟨(k, iv), hp, rfl⟩
    have hrevsub := keys_rev_subset (canonicalMap_nodup_keys hca)
      (canonicalMap_nodup_keys hcb) hkeysub (by simp [hlen])
    have hka : k ∈ a.map Prod.fst := hrevsub k hkb
    obtain ⟨ov, hov⟩ := lookupKey_isSome_of_mem_keys hka
    have hmema : (k, ov) ∈ a := lookupKey_mem hov
    obtain ⟨w, hw, hdeq⟩ := hsub (k, ov) hmema
    have hiv : lookupKey b k = some iv := canonicalMap_mem_lookup hcb hp
    have hwiv : w = iv := by
      rw [hw] at hiv
      exact Option.some.inj hiv
    subst hwiv
    cases hb : (isMapB ov && isMapB w) with
    | false =>
      rw [entryCheck_some_deep hov hb]
      exact hdeq
    | true =>
      simp only [Bool.and_eq_true] at hb
      obtain ⟨om, rfl⟩ := isMapB_true_iff.mp hb.1
      obtain ⟨im, rfl⟩ := isMapB_true_iff.mp hb.2
      rw [entryCheck_some_maps hov]
      have hcom : canonicalMap om = true := by
        have := canonicalMap_mem_canonical hca hmema
        rwa [canonicalV] at this
      have hcim : canonicalMap im = true := by
        have := canonicalMap_mem_canonical hcb hp
        rwa [canonicalV] at this
      have heqom : mapEqual om im = true := by
        simpa only [deepEqual] using hdeq
      have hlt : sizeOf om < sizeOf a :=
        lt_trans sizeOf_lt_map (sizeOf_val_lt_of_mem hmema)
      exact ih (sizeOf om) (lt_of_lt_of_le hlt hle) om im le_rfl hcom hcim heqom

theorem mapEqual_imp_contains {a b : Mapping}
    (hca : canonicalMap a = true) (hcb : canonicalMap b = true)
    (heq : mapEqual a b = true) : checkContainsMap a b = true :=
  mapEqual_imp_contains_aux (sizeOf a) a b le_rfl hca hcb heq

theorem checkContainsMap_self_aux :
    ∀ (n : Nat) (x : Mapping), sizeOf x ≤ n → canonicalMap x = true →
      checkContainsMap x x = true := by
  intro n
  induction n using Nat.strong_induction_on with
  | _ n ih =>
    intro x hle hc
    apply checkContainsMap_iff.mpr
    rintro ⟨k, iv⟩ hp
    have hov : lookupKey x k = some iv := canonicalMap_mem_lookup hc hp
    cases hm : isMapB iv with
    | true =>
      obtain ⟨im, rfl⟩ := isMapB_true_iff.mp hm
      rw [entryCheck_some_maps hov]
      have hcim : canonicalMap im = true := by
        have := canonicalMap_mem_canonical hc hp
        rwa [canonicalV] at this
      have hlt : sizeOf im < sizeOf x :=
        lt_trans sizeOf_lt_map (sizeOf_val_lt_of_mem hp)
      exact ih (sizeOf im) (lt_of_lt_of_le hlt hle) im le_rfl hcim
    | false =>
      rw [entryCheck_some_deep hov (by simp [hm])]
      exact deepEqual_refl (canonicalMap_mem_canonical hc hp)

theorem checkContainsMap_self {x : Mapping} (hc : canonicalMap x = true) :
    checkContainsMap x x = true :=
  checkContainsMap_self_aux (sizeOf x) x le_rfl hc

/-- Embeds `delete(inner, k)`: the inner mapping with the bindings for
key `k` removed. -/
def removeKey (m : Mapping) (k : String) : Mapping :=
  m.filter (fun p => p.1 != k)

theorem checkContainsMap_removeKey {outer inner : Mapping} {k : String}
    (h : checkContainsMap outer inner = true) :
    checkContainsMap outer (removeKey inner k) = true := by
  apply checkContainsMap_iff.mpr
  intro p hp
  exact checkContainsMap_iff.mp h p (List.mem_of_mem_filter hp)

/-! Lemmas about the name table built by `makeMatch`. -/

theorem lookupName_insertName_self (t : NameTable) (name : String) (n : Nat) :
    lookupName (insertName t name n) name = some n := by
  induction t with
  | nil => simp [insertName, lookupName]
  | cons p rest ih =>
    obtain ⟨k, i⟩ := p
    rw [insertName]
    by_cases hk : k = name
    · simp [hk, lookupName]
    · simp only [hk, if_false]
      rw [lookupName, if_neg hk]
      exact ih

theorem lookupName_insertName_other (t : NameTable) (name : String) (n : Nat)
    (nm : String) (h : name ≠ nm) :
    lookupName (insertName t name n) nm = lookupName t nm := by
  induction t with
  | nil => simp [insertName, lookupName, h]
  | cons p rest ih =>
    obtain ⟨k, i⟩ := p
    rw [insertName]
    by_cases hk : k = name
    · subst hk
      simp only [if_pos rfl]
      simp only [lookupName]
      rw [if_neg h, if_neg h]
    · simp only [hk, if_false]
      simp only [lookupName]
      by_cases hknm : k = nm
      · simp [hknm]
      · simp [hknm, ih]

theorem buildNamesAux_lookup :
    ∀ (rest : List String) (n : Nat) (acc : NameTable) (nm : String), nm ≠ "" →
      lookupName (buildNamesAux n rest acc) nm =
        (lastOcc rest nm).elim (lookupName acc nm) (fun j => some (n + j)) := by
  intro rest
  induction rest with
  | nil => intro n acc nm _; simp [buildNamesAux, lastOcc]
  | cons x tail ih =>
    intro n acc nm hnm
    rw [buildNamesAux, lastOcc]
    rw [ih (n + 1) _ nm hnm]
    cases hl : lastOcc tail nm with
    | some j =>
      simp only [Option.elim]
      congr 1
      omega
    | none =>
      simp only [Option.elim]
      by_cases hx : x = nm
      · subst hx
        rw [if_pos rfl]
        simp only [Option.elim]
        rw [if_neg hnm]
        rw [lookupName_insertName_self]
        simp
      · rw [if_neg hx]
        simp only [Option.elim]
        by_cases hxe : x = ""
        · simp [hxe]
        · rw [if_neg hxe]
          exact lookupName_insertName_other _ _ _ _ hx

theorem buildNames_lookup (names : List String) (nm : String) (h : nm ≠ "") :
    lookupName (buildNames names) nm = lastOcc names nm := by
  rw [buildNames, buildNamesAux_lookup names 0 [] nm h]
  cases lastOcc names nm with
  | none => simp [Option.elim, lookupName]
  | some j => simp [Option.elim]

theorem lastOcc_none {ns : List String} {nm : String}
    (h : lastOcc ns nm = none) : ∀ j, j < ns.length → ns.getD j "" ≠ nm := by
  induction ns with
  | nil => intro j hj; simp at hj
  | cons x rest ih =>
    rw [lastOcc] at h
    cases hl : lastOcc rest nm with
    | some i => rw [hl] at h; simp at h
    | none =>
      rw [hl] at h
      simp only [Option.elim] at h
      have hx : x ≠ nm := by
        intro he
        rw [if_pos he] at h
        simp at h
      intro j hj
      cases j with
      | zero => simpa using hx
      | succ j2 =>
        simp only [List.getD_cons_succ]
        exact ih hl j2 (by simpa using hj)

theorem lastOcc_spec :
    ∀ (ns : List String) (nm : String) (i : Nat), lastOcc ns nm = some i →
      i < ns.length ∧ ns.getD i "" = nm ∧
        ∀ j, i < j → j < ns.length → ns.getD j "" ≠ nm := by
  intro ns
  induction ns with
  | nil => intro nm i h; simp [lastOcc] at h
  | cons x rest ih =>
    intro nm i h
    rw [lastOcc] at h
    cases hl : lastOcc rest nm with
    | some j =>
      rw [hl] at h
      have hi : i = j + 1 := (Option.some.inj h).symm
      subst hi
      obtain ⟨h1, h2, h3⟩ := ih nm j hl
      refine ⟨by simpa using Nat.succ_lt_succ h1, by simpa using h2, ?_⟩
      intro j2 hgt hlt
      cases j2 with
      | zero => omega
      | succ j3 =>
        simp only [List.getD_cons_succ]
        exact h3 j3 (by omega) (by simpa using hlt)
    | none =>
      rw [hl] at h
      simp only [Option.elim] at h
      by_cases hx : x = nm
      · rw [if_pos hx] at h
        have hi : i = 0 := (Option.some.inj h).symm
        subst hi
        refine ⟨by simp, by simpa using hx, ?_⟩
        intro j hgt hlt
        cases j with
        | zero => omega
        | succ j2 =>
          simp only [List.getD_cons_succ]
          exact lastOcc_none hl j2 (by simpa using hlt)
      · rw [if_neg hx] at h
        simp at h

/-! The claims. -/

/-- C1: for every outer and inner mapping, partial-map containment
(`Object.ContainsMap` via `checkContainsMap`) holds iff every inner key is
present in the outer mapping and, at each such key, either both values are
mappings and containment holds recursively, or the two values are deeply
equal; in particular a sequence-valued key must match element-for-element,
and any absent key or mismatched value fails the containment as a whole. -/
theorem claim_C1 (outer inner : Mapping)
    (hco : canonicalMap outer = true) (hci : canonicalMap inner = true) :
    (checkContainsMap outer inner = true ↔
      ∀ p ∈ inner, ∃ ov, lookupKey outer p.1 = some ov ∧
        ((∃ om im, ov = .map om ∧ p.2 = .map im ∧ checkContainsMap om im = true) ∨
          deepEqual ov p.2 = true)) ∧
    (∀ c : Chain, (Object.mk c (some outer)).containsMap inner =
      checkContainsMap outer inner) ∧
    checkContainsMap [("a", .seq [.num 1, .num 2, .num 3])]
      [("a", .seq [.num 1, .num 2])] = false := by
  refine ⟨?_, fun c => rfl, ?_⟩
  · constructor
    · intro h
      rintro ⟨k, iv⟩ hp
      have he := checkContainsMap_iff.mp h (k, iv) hp
      cases hl : lookupKey outer k with
      | none =>
        rw [entryCheck_none hl] at he
        exact absurd he (by simp)
      | some ov =>
        refine ⟨ov, rfl, ?_⟩
        cases hb : (isMapB ov && isMapB iv) with
        | false =>
          rw [entryCheck_some_deep hl hb] at he
          exact Or.inr he
        | true =>
          simp only [Bool.and_eq_true] at hb
          obtain ⟨om, rfl⟩ := isMapB_true_iff.mp hb.1
          obtain ⟨im, rfl⟩ := isMapB_true_iff.mp hb.2
          rw [entryCheck_some_maps hl] at he
          exact Or.inl ⟨om, im, rfl, rfl, he⟩
    · intro h
      apply checkContainsMap_iff.mpr
      rintro ⟨k, iv⟩ hp
      obtain ⟨ov, hov, hd⟩ := h (k, iv) hp
      rcases hd with ⟨om, im, hovm, hpm, hcon⟩ | hde
      · subst hovm
        simp only at hpm
        subst hpm
        rw [entryCheck_some_maps hov]
        exact hcon
      · cases hb : (isMapB ov && isMapB iv) with
        | false =>
          rw [entryCheck_some_deep hov hb]
          exact hde
        | true =>
          simp only [Bool.and_eq_true] at hb
          obtain ⟨om, rfl⟩ := isMapB_true_iff.mp hb.1
          obtain ⟨im, rfl⟩ := isMapB_true_iff.mp hb.2
          rw [entryCheck_some_maps hov]
          have hcom : canonicalMap om = true := by
            have := canonicalMap_mem_canonical hco (lookupKey_mem hov)
            rwa [canonicalV] at this
          have hcim : canonicalMap im = true := by
            have := canonicalMap_mem_canonical hci hp
            rwa [canonicalV] at this
          have heqom : mapEqual om im = true := by
            simpa only [deepEqual] using hde
          exact mapEqual_imp_contains hcom hcim heqom
  · simp [checkContainsMap, entryCheck, deepEqual, seqEqual, mapEqual, mapSubEq,
      lookupKey]

/-- Sample canonical mappings used by concrete witnesses. -/
def sampleOuter : Mapping :=
  [("foo", .num 123), ("bar", .map [("a", .boolean true), ("b", .boolean false)])]

/-- Sample inner mapping contained in `sampleOuter`. -/
def sampleInner : Mapping :=
  [("bar", .map [("a", .boolean true), ("b", .boolean false)])]

/-- C1 witness at concrete canonicalizable mappings. -/
theorem claim_C1_witness :
    canonicalMap sampleOuter = true ∧ canonicalMap sampleInner = true ∧
    ((checkContainsMap sampleOuter sampleInner = true ↔
       ∀ p ∈ sampleInner, ∃ ov, lookupKey sampleOuter p.1 = some ov ∧
         ((∃ om im, ov = .map om ∧ p.2 = .map im ∧ checkContainsMap om im = true) ∨
           deepEqual ov p.2 = true)) ∧
     (∀ c : Chain, (Object.mk c (some sampleOuter)).containsMap sampleInner =
       checkContainsMap sampleOuter sampleInner) ∧
     checkContainsMap [("a", .seq [.num 1, .num 2, .num 3])]
       [("a", .seq [.num 1, .num 2])] = false) :=
  ⟨by simp [sampleOuter, canonicalMap, canonicalV, lookupKey],
   by simp [sampleInner, canonicalMap, canonicalV, lookupKey],
   claim_C1 sampleOuter sampleInner
     (by simp [sampleOuter, canonicalMap, canonicalV, lookupKey])
     (by simp [sampleInner, canonicalMap, canonicalV, lookupKey])⟩

/-- C2: partial-map containment is reflexive on canonical mappings, and
subset-monotonic: removing any key from a contained inner mapping keeps
the containment. -/
theorem claim_C2 (x outer inner : Mapping) (k : String)
    (hcx : canonicalMap x = true)
    (hci : checkContainsMap outer inner = true) :
    checkContainsMap x x = true ∧
    checkContainsMap outer (removeKey inner k) = true :=
  ⟨checkContainsMap_self hcx, checkContainsMap_removeKey hci⟩

/-- C2 witness at concrete mappings. -/
theorem claim_C2_witness :
    canonicalMap sampleOuter = true ∧
    checkContainsMap sampleOuter sampleInner = true ∧
    (checkContainsMap sampleOuter sampleOuter = true ∧
     checkContainsMap sampleOuter (removeKey sampleInner "bar") = true) :=
  ⟨by simp [sampleOuter, canonicalMap, canonicalV, lookupKey],
   by simp [sampleOuter, sampleInner, checkContainsMap, entryCheck, deepEqual,
     seqEqual, mapEqual, mapSubEq, lookupKey],
   claim_C2 sampleOuter sampleOuter sampleInner "bar"
     (by simp [sampleOuter, canonicalMap, canonicalV, lookupKey])
     (by simp [sampleOuter, sampleInner, checkContainsMap, entryCheck, deepEqual,
       seqEqual, mapEqual, mapSubEq, lookupKey])⟩

/-- C3: `Object.ValueEqual` and `Object.ValueNotEqual` run `ContainsKey`
first and short-circuit on `failed()`: on a missing key exactly one key
failure is recorded and no equality or inequality failure is reported. -/
theorem claim_C3 (o : Object) (k : String) (v : CanonValue)
    (h : o.containsKey k = false) :
    (o.ValueEqual k v).chain.log = o.chain.log ++
      [{ assertionName := "Object.ContainsKey", assertType := .key,
         expected := some (.strVal k), actual := some (.mapVal o.value) }] ∧
    (o.ValueNotEqual k v).chain.log = o.chain.log ++
      [{ assertionName := "Object.ContainsKey", assertType := .key,
         expected := some (.strVal k), actual := some (.mapVal o.value) }] := by
  constructor
  · simp [Object.ValueEqual, Object.ContainsKey, h, Chain.failedQ, Chain.fail]
  · simp [Object.ValueNotEqual, Object.ContainsKey, h, Chain.failedQ, Chain.fail]

/-- C3 witness: a fresh object queried at a missing key. -/
theorem claim_C3_witness :
    (NewObject (some [("foo", .num 123)])).containsKey "bar" = false ∧
    (((NewObject (some [("foo", .num 123)])).ValueEqual "bar" (.num 1)).chain.log =
      (NewObject (some [("foo", .num 123)])).chain.log ++
        [{ assertionName := "Object.ContainsKey", assertType := .key,
           expected := some (.strVal "bar"),
           actual := some (.mapVal (NewObject (some [("foo", .num 123)])).value) }] ∧
     ((NewObject (some [("foo", .num 123)])).ValueNotEqual "bar" (.num 1)).chain.log =
      (NewObject (some [("foo", .num 123)])).chain.log ++
        [{ assertionName := "Object.ContainsKey", assertType := .key,
           expected := some (.strVal "bar"),
           actual := some (.mapVal (NewObject (some [("foo", .num 123)])).value) }]) :=
  ⟨rfl, claim_C3 (NewObject (some [("foo", .num 123)])) "bar" (.num 1) rfl⟩

/-- C9: on an already-failed chain, `ValueEqual` and `ValueNotEqual`
return the object right after the `ContainsKey` step and record no
equality or inequality failure, even when the key is present (in which
case nothing at all is recorded). -/
theorem claim_C9 (o : Object) (k : String) (v : CanonValue)
    (h : o.chain.failbit = true) :
    o.ValueEqual k v = o.ContainsKey k ∧
    o.ValueNotEqual k v = o.ContainsKey k ∧
    (o.containsKey k = true → o.ContainsKey k = o) := by
  refine ⟨?_, ?_, fun hk => by simp [Object.ContainsKey, hk]⟩ <;>
    by_cases hk : o.containsKey k <;>
      simp [Object.ValueEqual, Object.ValueNotEqual, Object.ContainsKey,
        Chain.failedQ, Chain.fail, h, hk]

/-- C9 witness: a failed chain with the key present. -/
theorem claim_C9_witness :
    (Object.mk ⟨true, []⟩ (some [("foo", .num 123)])).chain.failbit = true ∧
    (Object.mk ⟨true, []⟩ (some [("foo", .num 123)])).containsKey "foo" = true ∧
    ((Object.mk ⟨true, []⟩ (some [("foo", .num 123)])).ValueEqual "foo" (.num 5) =
       (Object.mk ⟨true, []⟩ (some [("foo", .num 123)])).ContainsKey "foo" ∧
     (Object.mk ⟨true, []⟩ (some [("foo", .num 123)])).ValueNotEqual "foo" (.num 5) =
       (Object.mk ⟨true, []⟩ (some [("foo", .num 123)])).ContainsKey "foo" ∧
     ((Object.mk ⟨true, []⟩ (some [("foo", .num 123)])).containsKey "foo" = true →
       (Object.mk ⟨true, []⟩ (some [("foo", .num 123)])).ContainsKey "foo" =
         Object.mk ⟨true, []⟩ (some [("foo", .num 123)]))) :=
  ⟨rfl, rfl, claim_C9 (Object.mk ⟨true, []⟩ (some [("foo", .num 123)])) "foo" (.num 5) rfl⟩

/-- C10: `Object.Empty` is exactly `Object.Equal` on the empty map and
`Object.NotEmpty` exactly `Object.NotEqual` on the empty map; on failure
the recorded failure carries the equal (resp. not-equal) kind, not an
empty or not-empty kind. -/
theorem claim_C10 (o : Object) :
    o.Empty = o.Equal [] ∧
    o.NotEmpty = o.NotEqual [] ∧
    (deepEqualObj [] o.value = false →
      (o.Empty).chain.log = o.chain.log ++
        [{ assertionName := "Object.Equal", assertType := .equal,
           expected := some (.mapVal (some [])), actual := some (.mapVal o.value) }]) ∧
    (deepEqualObj [] o.value = true →
      (o.NotEmpty).chain.log = o.chain.log ++
        [{ assertionName := "Object.NotEqual", assertType := .notEqual,
           expected := some (.mapVal (some [])) }]) := by
  refine ⟨rfl, rfl, ?_, ?_⟩
  · intro h
    simp [Object.Empty, Object.Equal, canonMap, h, Chain.fail]
  · intro h
    simp [Object.NotEmpty, Object.NotEqual, canonMap, h, Chain.fail]

/-- C10 witness: a non-empty object failing `Empty` and an empty object
failing `NotEmpty`. -/
theorem claim_C10_witness :
    deepEqualObj [] (NewObject (some [("foo", .num 123)])).value = false ∧
    deepEqualObj [] (NewObject (some [])).value = true ∧
    (((NewObject (some [("foo", .num 123)])).Empty).chain.log =
      (NewObject (some [("foo", .num 123)])).chain.log ++
        [{ assertionName := "Object.Equal", assertType := .equal,
           expected := some (.mapVal (some [])),
           actual := some (.mapVal (NewObject (some [("foo", .num 123)])).value) }]) ∧
    (((NewObject (some [])).NotEmpty).chain.log =
      (NewObject (some [])).chain.log ++
        [{ assertionName := "Object.NotEqual", assertType := .notEqual,
           expected := some (.mapVal (some [])) }]) :=
  ⟨by simp [NewObject, canonMap, deepEqualObj, mapEqual, mapSubEq],
   by simp [NewObject, canonMap, deepEqualObj, mapEqual, mapSubEq],
   (claim_C10 (NewObject (some [("foo", .num 123)]))).2.2.1
     (by simp [NewObject, canonMap, deepEqualObj, mapEqual, mapSubEq]),
   (claim_C10 (NewObject (some []))).2.2.2
     (by simp [NewObject, canonMap, deepEqualObj, mapEqual, mapSubEq])⟩

/-- C4: `Match.Index` with `0 <= i < len` yields exactly `submatches[i]`
on the unchanged chain; outside that range it records exactly one
out-of-bounds failure with expected = i and actual = len and yields an
empty-string wrapper on the same (now failed) chain. -/
theorem claim_C4 (m : Match) (i : Int) :
    (0 ≤ i → i < (m.submatches.length : Int) →
      m.Index i = ⟨m.chain, m.submatches.getD i.toNat ""⟩) ∧
    ((i < 0 ∨ (m.submatches.length : Int) ≤ i) →
      m.Index i = ⟨m.chain.fail { assertionName := "Match.Index",
                                   assertType := .outOfBounds,
                                   expected := some (.intVal i),
                                   actual := some (.intVal (m.submatches.length : Int)) },
        ""⟩) := by
  constructor
  · intro h1 h2
    rw [Match.Index, if_neg (not_or.mpr ⟨not_lt.mpr h1, not_le.mpr h2⟩)]
  · intro h
    rw [Match.Index, if_pos h]

/-- C4 witness: in-bounds and out-of-bounds access on a concrete match. -/
theorem claim_C4_witness :
    ((0 : Int) ≤ 1 ∧ (1 : Int) < ((NewMatch ["w", "x", "y"] []).submatches.length : Int) ∧
      (NewMatch ["w", "x", "y"] []).Index 1 =
        ⟨(NewMatch ["w", "x", "y"] []).chain,
          (NewMatch ["w", "x", "y"] []).submatches.getD (Int.toNat 1) ""⟩) ∧
    (((5 : Int) < 0 ∨ ((NewMatch ["w", "x", "y"] []).submatches.length : Int) ≤ 5) ∧
      (NewMatch ["w", "x", "y"] []).Index 5 =
        ⟨(NewMatch ["w", "x", "y"] []).chain.fail
          { assertionName := "Match.Index",
            assertType := .outOfBounds,
            expected := some (.intVal 5),
            actual := some (.intVal ((NewMatch ["w", "x", "y"] []).submatches.length : Int)) },
          ""⟩) :=
  ⟨⟨by decide, by decide,
    (claim_C4 (NewMatch ["w", "x", "y"] []) 1).1 (by decide) (by decide)⟩,
   ⟨by decide,
    (claim_C4 (NewMatch ["w", "x", "y"] []) 5).2 (by decide)⟩⟩

/-- C5 counterexample: with submatches `[]` and names `["", "host"]`
(permitted inputs: `NewMatch` allows nil submatches), the name "host" is
present in the table at index 1, yet `Name("host")` does not yield the
submatch at that index — there is none — and a failure is recorded even
though the name is present, contradicting the claim that a present name
yields the submatch at the mapped index and only absence records a
failure. -/
theorem claim_C5_counterexample :
    lookupName (NewMatch [] ["", "host"]).names "host" = some 1 ∧
    ((NewMatch [] ["", "host"]).Name "host").value = "" ∧
    ((NewMatch [] ["", "host"]).Name "host").chain.log.map Failure.assertType
      = [.outOfBounds] :=
  ⟨rfl, rfl, rfl⟩

/-- C5 amended: the name table is built once at construction with a
repeated non-empty name mapping to its last index; a present name
delegates to the bounds-checked `Index` at the mapped index (yielding the
submatch when in bounds and an out-of-bounds failure with an inert
empty-string wrapper otherwise); an absent name records exactly one
failure with the full table as expected and the name as actual and yields
an inert empty-string wrapper. -/
theorem claim_C5_amended (sm ns : List String) (nm : String) (m : Match) (i : Nat) :
    (nm ≠ "" → lookupName (makeMatch makeChain sm ns).names nm = lastOcc ns nm) ∧
    (lastOcc ns nm = some i → i < ns.length ∧ ns.getD i "" = nm ∧
      ∀ j, i < j → j < ns.length → ns.getD j "" ≠ nm) ∧
    (lookupName m.names nm = some i → m.Name nm = m.Index (i : Int)) ∧
    (lookupName m.names nm = none →
      m.Name nm = ⟨m.chain.fail { assertionName := "Match.Name",
                                   assertType := .matchRe,
                                   expected := some (.nameTable m.names),
                                   actual := some (.strVal nm) }, ""⟩) := by
  refine ⟨fun h => buildNames_lookup ns nm h, fun h => lastOcc_spec ns nm i h, ?_, ?_⟩
  · intro h
    simp only [Match.Name, h]
  · intro h
    simp only [Match.Name, h]

/-- C5 witness: repeated name, present name and absent name on concrete
matches. -/
theorem claim_C5_witness :
    ("host" ≠ "" ∧
      lookupName (makeMatch makeChain ["a", "b", "c"] ["", "host", "host"]).names "host"
        = lastOcc ["", "host", "host"] "host") ∧
    (lastOcc ["", "host", "host"] "host" = some 2 ∧
      2 < (["", "host", "host"] : List String).length ∧
      (["", "host", "host"] : List String).getD 2 "" = "host" ∧
      ∀ j, 2 < j → j < (["", "host", "host"] : List String).length →
        (["", "host", "host"] : List String).getD j "" ≠ "host") ∧
    (lookupName (NewMatch ["a", "b", "c"] ["", "host", "host"]).names "host" = some 2 ∧
      (NewMatch ["a", "b", "c"] ["", "host", "host"]).Name "host" =
        (NewMatch ["a", "b", "c"] ["", "host", "host"]).Index ((2 : Nat) : Int)) ∧
    (lookupName (NewMatch ["a", "b", "c"] ["", "host", "host"]).names "user" = none ∧
      (NewMatch ["a", "b", "c"] ["", "host", "host"]).Name "user" =
        ⟨(NewMatch ["a", "b", "c"] ["", "host", "host"]).chain.fail
          { assertionName := "Match.Name", assertType := .matchRe,
            expected := some (.nameTable (NewMatch ["a", "b", "c"] ["", "host", "host"]).names),
            actual := some (.strVal "user") }, ""⟩) :=
  ⟨⟨by decide,
    (claim_C5_amended ["a", "b", "c"] ["", "host", "host"] "host"
      (NewMatch ["a", "b", "c"] ["", "host", "host"]) 2).1 (by decide)⟩,
   ⟨rfl,
    (claim_C5_amended ["a", "b", "c"] ["", "host", "host"] "host"
      (NewMatch ["a", "b", "c"] ["", "host", "host"]) 2).2.1 rfl⟩,
   ⟨rfl,
    (claim_C5_amended ["a", "b", "c"] ["", "host", "host"] "host"
      (NewMatch ["a", "b", "c"] ["", "host", "host"]) 2).2.2.1 rfl⟩,
   ⟨rfl,
    (claim_C5_amended ["a", "b", "c"] ["", "host", "host"] "user"
      (NewMatch ["a", "b", "c"] ["", "host", "host"]) 0).2.2.2 rfl⟩⟩

theorem getValues_eq_drop (m : Match) : m.getValues = m.submatches.drop 1 := by
  obtain ⟨c, sub, nt⟩ := m
  cases sub with
  | nil => rfl
  | cons x t =>
    cases t with
    | nil => rfl
    | cons y t2 =>
      have h : 1 < (x :: y :: t2 : List String).length := by
        simp only [List.length_cons]
        omega
      simp only [Match.getValues, if_pos h]

theorem log_append_ne (l : List Failure) (f : Failure) : l ++ [f] ≠ l := by
  intro he
  have := congrArg List.length he
  simp at this

/-- C6: `Match.Values` and `Match.NotValues` compare the argument list
only against the submatches from index 1 on; on the sample submatches,
`Values ["x","y"]` records nothing while `Values ["x"]` records a failure
of the ordinary equality kind (a length mismatch is not a separate kind). -/
theorem claim_C6 (m : Match) (vs : List String) :
    m.getValues = m.submatches.drop 1 ∧
    ((m.Values vs).chain.log = m.chain.log ↔ vs = m.getValues) ∧
    (vs ≠ m.getValues →
      (m.Values vs).chain.log = m.chain.log ++
        [{ assertionName := "Match.Values", assertType := .equal,
           expected := some (.strList vs), actual := some (.strList m.getValues) }]) ∧
    ((m.NotValues vs).chain.log = m.chain.log ↔ vs ≠ m.getValues) ∧
    ((NewMatch ["http://x/users/y", "x", "y"] []).Values ["x", "y"]).chain.log = [] ∧
    ((NewMatch ["http://x/users/y", "x", "y"] []).Values ["x"]).chain.log.map
      Failure.assertType = [.equal] := by
  refine ⟨getValues_eq_drop m, ?_, ?_, ?_, rfl, rfl⟩
  · by_cases hv : vs = m.getValues
    · rw [Match.Values, if_neg (fun hne => hne hv)]
      exact iff_of_true rfl hv
    · rw [Match.Values, if_pos hv]
      exact iff_of_false (log_append_ne _ _) hv
  · intro hv
    rw [Match.Values, if_pos hv]
    rfl
  · by_cases hv : vs = m.getValues
    · rw [Match.NotValues, if_pos hv]
      exact iff_of_false (log_append_ne _ _) (fun hne => hne hv)
    · rw [Match.NotValues, if_neg hv]
      exact iff_of_true rfl hv

/-- C6 witness: a too-short argument list on the sample submatches. -/
theorem claim_C6_witness :
    (["x"] : List String) ≠ (NewMatch ["http://x/users/y", "x", "y"] []).getValues ∧
    ((NewMatch ["http://x/users/y", "x", "y"] []).Values ["x"]).chain.log =
      (NewMatch ["http://x/users/y", "x", "y"] []).chain.log ++
        [{ assertionName := "Match.Values", assertType := .equal,
           expected := some (.strList ["x"]),
           actual := some (.strList (NewMatch ["http://x/users/y", "x", "y"] []).getValues) }] :=
  ⟨by decide,
   (claim_C6 (NewMatch ["http://x/users/y", "x", "y"] []) ["x"]).2.2.1 (by decide)⟩

/-- C7: every constructor yields a wrapper whose fresh chain starts in
the ok state with nothing reported, except `NewObject` on a nil map,
which records exactly one invalid-input failure and starts failed while
still returning a wrapper. -/
theorem claim_C7 (mp : Mapping) (sm ns : List String) :
    (NewObject (some mp)).chain.failbit = false ∧
    (NewObject (some mp)).chain.log = [] ∧
    (NewObject (some mp)).value = some mp ∧
    (NewMatch sm ns).chain.failbit = false ∧
    (NewMatch sm ns).chain.log = [] ∧
    (NewObject none).chain.failbit = true ∧
    (NewObject none).chain.log =
      [{ assertType := .invalidInput, err := some "expected non-nil map value" }] ∧
    (NewObject none).value = none :=
  ⟨rfl, rfl, rfl, rfl, rfl, rfl, rfl, rfl⟩

theorem objValue_Equal (o : Object) (mp : Mapping) : (o.Equal mp).value = o.value := by
  cases h : deepEqualObj mp o.value <;> simp [Object.Equal, canonMap, h]

theorem objValue_NotEqual (o : Object) (mp : Mapping) :
    (o.NotEqual mp).value = o.value := by
  cases h : deepEqualObj mp o.value <;> simp [Object.NotEqual, canonMap, h]

theorem objValue_ContainsKey (o : Object) (k : String) :
    (o.ContainsKey k).value = o.value := by
  cases h : o.containsKey k <;> simp [Object.ContainsKey, h]

theorem objValue_NotContainsKey (o : Object) (k : String) :
    (o.NotContainsKey k).value = o.value := by
  cases h : o.containsKey k <;> simp [Object.NotContainsKey, h]

theorem objValue_ContainsMap (o : Object) (mp : Mapping) :
    (o.ContainsMap mp).value = o.value := by
  cases h : o.containsMap mp <;> simp [Object.ContainsMap, h]

theorem objValue_NotContainsMap (o : Object) (mp : Mapping) :
    (o.NotContainsMap mp).value = o.value := by
  cases h : o.containsMap mp <;> simp [Object.NotContainsMap, h]

theorem objValue_ValueEqual (o : Object) (k : String) (v : CanonValue) :
    (o.ValueEqual k v).value = o.value := by
  simp only [Object.ValueEqual, canonValue]
  cases hf : (o.ContainsKey k).chain.failedQ <;>
    cases hd : deepEqual v ((o.ContainsKey k).indexVal k) <;>
      simp [hf, hd, objValue_ContainsKey]

theorem objValue_ValueNotEqual (o : Object) (k : String) (v : CanonValue) :
    (o.ValueNotEqual k v).value = o.value := by
  simp only [Object.ValueNotEqual, canonValue]
  cases hf : (o.ContainsKey k).chain.failedQ <;>
    cases hd : deepEqual v ((o.ContainsKey k).indexVal k) <;>
      simp [hf, hd, objValue_ContainsKey]

theorem matchFrame_Empty (m : Match) :
    (m.Empty).submatches = m.submatches ∧ (m.Empty).names = m.names := by
  by_cases h : m.submatches.length ≠ 0 <;> simp [Match.Empty, h]

theorem matchFrame_NotEmpty (m : Match) :
    (m.NotEmpty).submatches = m.submatches ∧ (m.NotEmpty).names = m.names := by
  by_cases h : m.submatches.length = 0 <;> simp [Match.NotEmpty, h]

theorem matchFrame_Values (m : Match) (vs : List String) :
    (m.Values vs).submatches = m.submatches ∧ (m.Values vs).names = m.names := by
  by_cases h : vs ≠ m.getValues <;> simp [Match.Values, h]

theorem matchFrame_NotValues (m : Match) (vs : List String) :
    (m.NotValues vs).submatches = m.submatches ∧ (m.NotValues vs).names = m.names := by
  by_cases h : vs = m.getValues <;> simp [Match.NotValues, h]

/-- C8: every assertion method leaves the wrapped payload unchanged — the
returned wrapper carries the same `Object.value` (resp. `Match.submatches`
and name table); only the chain is written. -/
theorem claim_C8 (o : Object) (m : Match) (k : String) (v : CanonValue)
    (mp : Mapping) (vs : List String) :
    (o.Empty).value = o.value ∧ (o.NotEmpty).value = o.value ∧
    (o.Equal mp).value = o.value ∧ (o.NotEqual mp).value = o.value ∧
    (o.ContainsKey k).value = o.value ∧ (o.NotContainsKey k).value = o.value ∧
    (o.ContainsMap mp).value = o.value ∧ (o.NotContainsMap mp).value = o.value ∧
    (o.ValueEqual k v).value = o.value ∧ (o.ValueNotEqual k v).value = o.value ∧
    o.Raw = o.value ∧ (o.Keys).chain = o.chain ∧ (o.ValuesA).chain = o.chain ∧
    (m.Empty).submatches = m.submatches ∧ (m.Empty).names = m.names ∧
    (m.NotEmpty).submatches = m.submatches ∧ (m.NotEmpty).names = m.names ∧
    (m.Values vs).submatches = m.submatches ∧ (m.Values vs).names = m.names ∧
    (m.NotValues vs).submatches = m.submatches ∧ (m.NotValues vs).names = m.names ∧
    m.Raw = m.submatches :=
  ⟨objValue_Equal o [], objValue_NotEqual o [], objValue_Equal o mp,
   objValue_NotEqual o mp, objValue_ContainsKey o k, objValue_NotContainsKey o k,
   objValue_ContainsMap o mp, objValue_NotContainsMap o mp,
   objValue_ValueEqual o k v, objValue_ValueNotEqual o k v, rfl, rfl, rfl,
   (matchFrame_Empty m).1, (matchFrame_Empty m).2,
   (matchFrame_NotEmpty m).1, (matchFrame_NotEmpty m).2,
   (matchFrame_Values m vs).1, (matchFrame_Values m vs).2,
   (matchFrame_NotValues m vs).1, (matchFrame_NotValues m vs).2, rfl⟩

end Httpexpect
